import Mathlib

/-!
Verification development for the liminal-ai content-to-video pipeline.

The repository consists of a pipeline core (chunker, orchestrator, stage
wrappers) described in the project design document, plus React front-end
components.  The pipeline core's Python sources are not present in this
tree, so its operations are modelled from the specification text; the
front-end handlers are embedded directly from the JSX sources.

Modelling choices:
* text is represented at the granularity the chunking algorithm works at:
  a list of sentences, each sentence a list of words (the sentence splitter
  itself is an external detail; a whitespace-only input has no sentences);
* the external capability calls of the orchestrator stages are an explicit
  environment mapping a unit's sequence index and payload to the stage's
  post-retry outcome;
* assembler invocations are recorded as an explicit list so that "invoked
  exactly once / never invoked" is a statement about a value.
-/

namespace Liminal

/-- Error taxonomy of the pipeline, from the design document's error
handling section. -/
inductive ErrKind
  | invalidInput
  | transientProviderError
  | fatalProviderError
  | incompleteTimeline
  | cancelled
  deriving DecidableEq

/-- A word of the input text. -/
abbrev Word := String

/-- Modelled from the spec: input text is split on sentence boundaries
before chunking, so text is represented as its ordered list of sentences,
each a list of words. -/
abbrev Sentence := List Word

/-- A raw chunk: a run of consecutive sentences of the input. -/
abbrev Chunk := List Sentence

/-- Number of words of a sentence. -/
def wordCount (s : Sentence) : Nat := s.length

/-- Number of words of a chunk. -/
def chunkWords (c : Chunk) : Nat := (c.map wordCount).sum

/-- Chunking constraints: minimum and maximum words per chunk. -/
structure Constraints where
  minWordsPerChunk : Nat
  maxWordsPerChunk : Nat

namespace Chunker

/-- Modelled from the spec: greedy sentence packing.  Sentences are
accumulated into the current chunk until adding the next sentence would
exceed the maximum bound, which closes the chunk — unless the chunk is
still below the minimum bound, in which case the next sentence is
force-included.  A sentence landing exactly on the bound closes the chunk
(ties favor closing). -/
def pack (minW maxW : Nat) (cur : Chunk) : List Sentence → List Chunk
  | [] => if cur = [] then [] else [cur]
  | s :: rest =>
    if cur = [] then pack minW maxW [s] rest
    else if maxW < chunkWords cur + wordCount s then
      if chunkWords cur < minW then pack minW maxW (cur ++ [s]) rest
      else cur :: pack minW maxW [s] rest
    else if chunkWords cur + wordCount s = maxW then
      (cur ++ [s]) :: pack minW maxW [] rest
    else pack minW maxW (cur ++ [s]) rest

/-- Modelled from the spec: the chunker contract.  Empty or whitespace-only
input (no sentences) fails with InvalidInput; otherwise the sentences are
greedily packed under the word-count constraints. -/
def chunk (c : Constraints) (text : List Sentence) : Except ErrKind (List Chunk) :=
  if text = [] then .error .invalidInput
  else .ok (pack c.minWordsPerChunk c.maxWordsPerChunk [] text)

end Chunker

/-- An artifact reference: the logical path of a persisted file. -/
abbrev Artifact := String

/-- Per-unit pipeline states, from the design document's state machine. -/
inductive UnitState
  | chunked
  | scripted
  | narrated
  | visualized
  | ready
  | failed (cause : ErrKind)
  deriving DecidableEq

/-- Whether a unit state is the terminal success state. -/
def UnitState.isReady : UnitState → Bool
  | .ready => true
  | _ => false

/-- Whether a unit state is the absorbing failure state. -/
def UnitState.isFailed : UnitState → Bool
  | .failed _ => true
  | _ => false

/-- One script segment of a job together with its derived artifacts. -/
structure JobUnit where
  index : Nat
  chunkText : Chunk
  script : Option String
  audio : Option Artifact
  visual : Option Artifact
  state : UnitState
  deriving DecidableEq

/-- Modelled from the spec: outcomes of the external capability calls
(script generation, narration synthesis, visual generation), keyed by the
unit's sequence index and the stage payload.  Each outcome already accounts
for the stage-local retry policy, so an error is terminal for that stage. -/
structure StageEnv where
  scriptGen : Nat → Chunk → Except ErrKind String
  synthesize : Nat → String → Except ErrKind Artifact
  visualGen : Nat → String → Except ErrKind Artifact

/-- Modelled from the spec: one transition of a unit under the orchestrator.
A unit advances one stage on success, moves into the absorbing failed state
on a stage error, and terminal states are fixed points. -/
def stepUnit (env : StageEnv) (u : JobUnit) : JobUnit :=
  match u.state with
  | .chunked =>
    match env.scriptGen u.index u.chunkText with
    | .ok s => { u with script := some s, state := .scripted }
    | .error c => { u with state := .failed c }
  | .scripted =>
    match env.synthesize u.index (u.script.getD "") with
    | .ok a => { u with audio := some a, state := .narrated }
    | .error c => { u with state := .failed c }
  | .narrated =>
    match env.visualGen u.index (u.script.getD "") with
    | .ok v => { u with visual := some v, state := .visualized }
    | .error c => { u with state := .failed c }
  | .visualized => { u with state := .ready }
  | .ready => u
  | .failed _ => u

/-- Modelled from the spec: drive one unit through all of its stages
(script generation, synthesis, visual generation, completion). -/
def runUnit (env : StageEnv) (u : JobUnit) : JobUnit :=
  stepUnit env (stepUnit env (stepUnit env (stepUnit env u)))

/-- Seed one unit per chunk, assigning consecutive sequence indices
starting from i. -/
def seedFrom (i : Nat) : List Chunk → List JobUnit
  | [] => []
  | c :: cs =>
    { index := i, chunkText := c, script := none, audio := none,
      visual := none, state := .chunked } :: seedFrom (i + 1) cs

/-- Modelled from the spec: seed the units of a job, one per chunk, in
chunk order with sequence indices 0, 1, 2, ... -/
def seedUnits (chunks : List Chunk) : List JobUnit := seedFrom 0 chunks

/-- Modelled from the spec: the assembler consumes the ordered unit list
and produces the final video artifact; it fails with IncompleteTimeline if
a unit lacks both artifact references. -/
def assemble (units : List JobUnit) : Except ErrKind Artifact :=
  if units.all (fun u => u.audio.isSome || u.visual.isSome) then .ok "final-video"
  else .error .incompleteTimeline

/-- Modelled from the spec: gap-filler placeholder artifacts for a unit
excluded from assembly under the partial-output policy. -/
def fillPlaceholder (u : JobUnit) : JobUnit :=
  { u with audio := some "placeholder-audio", visual := some "placeholder-visual" }

/-- Job-level options of the processJob entry point. -/
structure Options where
  minWordsPerChunk : Nat
  maxWordsPerChunk : Nat
  allowPartialOutput : Bool

/-- Job status, from the design document's state machine. -/
inductive JobStatus
  | pending
  | running
  | completed
  | partiallyFailed
  | failed
  deriving DecidableEq

/-- Structured result returned to the caller of processJob. -/
structure JobResult where
  status : JobStatus
  cause : Option ErrKind
  video : Option Artifact
  units : List JobUnit
  deriving DecidableEq

/-- Modelled from the spec: after chunking, fan out over the seeded units,
join, and decide assembly per the partial-output policy.  The second
component records every assembler invocation with the exact ordered unit
list it received. -/
def runPipeline (env : StageEnv) (opts : Options) (chunks : List Chunk) :
    JobResult × List (List JobUnit) :=
  let units := (seedUnits chunks).map (runUnit env)
  if units.all (fun u => u.state.isReady) then
    ({ status := .completed, cause := none, video := (assemble units).toOption,
       units := units }, [units])
  else if opts.allowPartialOutput then
    let padded := units.map (fun u => if u.state.isReady then u else fillPlaceholder u)
    ({ status := .partiallyFailed, cause := none, video := (assemble padded).toOption,
       units := units }, [padded])
  else
    ({ status := .failed, cause := none, video := none, units := units }, [])

/-- Modelled from the spec: the single entry point processJob.  The chunker
runs first; an InvalidInput failure short-circuits the job before any unit
is created. -/
def processJob (env : StageEnv) (opts : Options) (text : List Sentence) :
    JobResult × List (List JobUnit) :=
  match Chunker.chunk ⟨opts.minWordsPerChunk, opts.maxWordsPerChunk⟩ text with
  | .error e => ({ status := .failed, cause := some e, video := none, units := [] }, [])
  | .ok chunks => runPipeline env opts chunks

/-- One legal forward move of a unit state: the next stage of the forward
chain, or a jump from a non-terminal state into the absorbing failed
state. -/
inductive StepsForward : UnitState → UnitState → Prop
  | script : StepsForward .chunked .scripted
  | narrate : StepsForward .scripted .narrated
  | visualize : StepsForward .narrated .visualized
  | finish : StepsForward .visualized .ready
  | fail (s : UnitState) (c : ErrKind) :
      s ≠ .ready → (∀ c', s ≠ .failed c') → StepsForward s (.failed c)

/-- Position of a unit state along the forward chain (the failed state is
strictly after every state that can still move). -/
def stateRank : UnitState → Nat
  | .chunked => 0
  | .scripted => 1
  | .narrated => 2
  | .visualized => 3
  | .ready => 4
  | .failed _ => 5

/-- Two-sentence demo text used by the concrete witnesses. -/
def sTwo : Sentence := ["hello", "world"]

/-- One-sentence demo tail used by the concrete witnesses. -/
def sOne : Sentence := ["again"]

/-- Demo input text. -/
def demoText : List Sentence := [sTwo, sOne]

/-- Demo options: bounds 1..8 words, strict failure policy. -/
def demoOpts : Options := { minWordsPerChunk := 1, maxWordsPerChunk := 8, allowPartialOutput := false }

/-- Demo stage environment where every capability call succeeds. -/
def demoEnv : StageEnv where
  scriptGen := fun _ _ => .ok "script-text"
  synthesize := fun _ _ => .ok "audio"
  visualGen := fun _ _ => .ok "visual"

/-- Demo stage environment whose script generation always fails fatally. -/
def failEnv : StageEnv where
  scriptGen := fun _ _ => .error .fatalProviderError
  synthesize := fun _ _ => .ok "audio"
  visualGen := fun _ _ => .ok "visual"

/-- Demo unit in the initial chunked state. -/
def demoUnit : JobUnit :=
  { index := 0, chunkText := [sTwo], script := none, audio := none,
    visual := none, state := .chunked }

end Liminal

namespace Frontend

/-- A selected browser file: its name and MIME type, the two fields the
components read. -/
structure File where
  name : String
  type : String
  deriving DecidableEq

/-- The inputData state object shared by the input components. -/
structure InputData where
  url : String
  file : Option File
  deriving DecidableEq

namespace ContentInput

/-- Component state of ContentInput.jsx: the active tab, the error message
and the inputData prop. -/
structure State where
  activeTab : String
  error : String
  inputData : InputData
  deriving DecidableEq

/-- Embedding of handleFileChange from ContentInput.jsx: the first selected
file is stored (and the error cleared) when its MIME type is PDF or plain
text, otherwise only the error message is set. -/
def handleFileChange (files : List File) (s : State) : State :=
  match files.head? with
  | none => s
  | some file =>
    if file.type = "application/pdf" ∨ file.type = "text/plain" then
      { s with inputData := { s.inputData with file := some file }, error := "" }
    else
      { s with error := "Please upload a PDF or text file" }

end ContentInput

namespace HomePage

/-- Component state of the home page component in Navbar.jsx: active tab,
inputData, the processing flag and the error message. -/
structure State where
  activeTab : String
  inputData : InputData
  isProcessing : Bool
  error : String
  deriving DecidableEq

/-- Embedding of handleFileChange from the home page component in
Navbar.jsx (textually identical to the ContentInput handler). -/
def handleFileChange (files : List File) (s : State) : State :=
  match files.head? with
  | none => s
  | some file =>
    if file.type = "application/pdf" ∨ file.type = "text/plain" then
      { s with inputData := { s.inputData with file := some file }, error := "" }
    else
      { s with error := "Please upload a PDF or text file" }

/-- A form body posted to the /api/convert endpoint. -/
inductive FormBody
  | urlField (u : String)
  | fileField (f : Option File)
  deriving DecidableEq

/-- Embedding of handleSubmit from the home page component in Navbar.jsx.
The fetchOk argument is the response.ok of the awaited fetch; the returned
list records each POST request body issued. -/
def handleSubmit (fetchOk : Bool) (s : State) : State × List FormBody :=
  if s.activeTab = "url" ∧ s.inputData.url = "" then
    ({ s with error := "Please enter a URL" }, [])
  else if s.activeTab = "upload" ∧ s.inputData.file = none then
    ({ s with error := "Please upload a file" }, [])
  else
    let s1 := { s with isProcessing := true }
    let body := if s.activeTab = "url" then FormBody.urlField s.inputData.url
                else FormBody.fileField s.inputData.file
    let s2 := if fetchOk then s1
              else { s1 with error := "An error occurred while processing your request" }
    ({ s2 with isProcessing := false }, [body])

end HomePage

/-- Demo file of an unsupported MIME type. -/
def badFile : File := { name := "img.png", type := "image/png" }

/-- Demo file of a supported MIME type. -/
def goodFile : File := { name := "paper.pdf", type := "application/pdf" }

/-- Demo ContentInput state. -/
def cState : ContentInput.State :=
  { activeTab := "file", error := "", inputData := { url := "", file := none } }

/-- Demo home page state. -/
def hState : HomePage.State :=
  { activeTab := "upload", inputData := { url := "", file := none },
    isProcessing := false, error := "" }

/-- Demo home page state on the url tab with an empty url. -/
def emptyUrlState : HomePage.State :=
  { activeTab := "url", inputData := { url := "", file := none },
    isProcessing := false, error := "" }

/-- Demo home page state on the upload tab with no file selected. -/
def noFileState : HomePage.State :=
  { activeTab := "upload", inputData := { url := "https://example.com", file := none },
    isProcessing := false, error := "" }

end Frontend

namespace Liminal

theorem chunkWords_append (c : Chunk) (s : Sentence) :
    chunkWords (c ++ [s]) = chunkWords c + wordCount s := by
  simp [chunkWords]

theorem pack_flatten (minW maxW : Nat) (rest : List Sentence) :
    ∀ cur : Chunk, (Chunker.pack minW maxW cur rest).flatten = cur ++ rest := by
  induction rest with
  | nil =>
    intro cur
    by_cases h : cur = [] <;> simp [Chunker.pack, h]
  | cons s ss ih =>
    intro cur
    rw [Chunker.pack]
    split_ifs with h1 h2 h3 h4
    · simp [h1, ih]
    · simp [ih]
    · simp [ih]
    · simp [ih]
    · simp [ih]

theorem pack_ne_nil (minW maxW : Nat) (rest : List Sentence) :
    ∀ cur : Chunk, cur ≠ [] → Chunker.pack minW maxW cur rest ≠ [] := by
  induction rest with
  | nil =>
    intro cur h
    simp [Chunker.pack, h]
  | cons s ss ih =>
    intro cur h
    rw [Chunker.pack]
    split_ifs with h1 h2 h3 h4
    · exact ih [s] (by simp)
    · exact ih (cur ++ [s]) (by simp)
    · simp
    · simp
    · exact ih (cur ++ [s]) (by simp)

theorem pack_min (minW maxW : Nat) (hmm : minW ≤ maxW) (rest : List Sentence) :
    ∀ cur : Chunk, ∀ c ∈ (Chunker.pack minW maxW cur rest).dropLast,
      minW ≤ chunkWords c := by
  induction rest with
  | nil =>
    intro cur c hc
    by_cases h : cur = [] <;> simp [Chunker.pack, h] at hc
  | cons s ss ih =>
    intro cur c hc
    rw [Chunker.pack] at hc
    split_ifs at hc with h1 h2 h3 h4
    · exact ih [s] c hc
    · exact ih (cur ++ [s]) c hc
    · rcases heq : Chunker.pack minW maxW [s] ss with _ | ⟨d, L⟩
      · exact absurd heq (pack_ne_nil minW maxW ss [s] (by simp))
      · rw [heq, List.dropLast_cons₂] at hc
        rcases List.mem_cons.mp hc with rfl | hc
        · exact le_of_not_lt h3
        · rw [← heq] at hc
          exact ih [s] c hc
    · rcases heq : Chunker.pack minW maxW [] ss with _ | ⟨d, L⟩
      · rw [heq] at hc
        simp at hc
      · rw [heq, List.dropLast_cons₂] at hc
        rcases List.mem_cons.mp hc with rfl | hc
        · rw [chunkWords_append, h4]
          exact hmm
        · rw [← heq] at hc
          exact ih [] c hc
    · exact ih (cur ++ [s]) c hc

/-- A chunk admissible for the amended maximum bound: within the bound, or
a single (over-long) sentence, or force-extended past the bound only
because everything before its last sentence was still below the minimum. -/
def goodChunk (minW maxW : Nat) (c : Chunk) : Prop :=
  chunkWords c ≤ maxW ∨ c.length = 1 ∨ chunkWords c.dropLast < minW

theorem pack_max (minW maxW : Nat) (rest : List Sentence) :
    ∀ cur : Chunk, goodChunk minW maxW cur →
      ∀ c ∈ Chunker.pack minW maxW cur rest, goodChunk minW maxW c := by
  induction rest with
  | nil =>
    intro cur hcur c hc
    by_cases h : cur = [] <;> simp [Chunker.pack, h] at hc
    exact hc ▸ hcur
  | cons s ss ih =>
    intro cur hcur c hc
    rw [Chunker.pack] at hc
    split_ifs at hc with h1 h2 h3 h4
    · exact ih [s] (Or.inr (Or.inl rfl)) c hc
    · refine ih (cur ++ [s]) ?_ c hc
      right; right
      rw [List.dropLast_concat]
      exact h3
    · rcases List.mem_cons.mp hc with rfl | hc
      · exact hcur
      · exact ih [s] (Or.inr (Or.inl rfl)) c hc
    · rcases List.mem_cons.mp hc with rfl | hc
      · left
        rw [chunkWords_append, h4]
      · exact ih [] (Or.inl (by simp [chunkWords])) c hc
    · refine ih (cur ++ [s]) ?_ c hc
      left
      rw [chunkWords_append]
      exact not_lt.mp h2

/-- C1: for every input text and constraints, the chunks returned by the
chunker concatenate back to the original input (at the sentence level, so
no content is lost or duplicated across chunk boundaries). -/
theorem chunk_no_content_loss (c : Constraints) (text : List Sentence)
    (cs : List Chunk) (h : Chunker.chunk c text = .ok cs) : cs.flatten = text := by
  by_cases ht : text = []
  · simp [Chunker.chunk, ht] at h
  · simp only [Chunker.chunk, if_neg ht, Except.ok.injEq] at h
    rw [← h, pack_flatten]
    rfl

theorem chunk_no_content_loss_witness :
    Chunker.chunk ⟨1, 8⟩ demoText = .ok [[sTwo, sOne]] ∧
    ([[sTwo, sOne]] : List Chunk).flatten = demoText :=
  ⟨rfl, chunk_no_content_loss ⟨1, 8⟩ demoText [[sTwo, sOne]] rfl⟩

/-- Formalization of claim C2 exactly as stated: every chunk except
possibly the final one meets the minimum bound, and every chunk is within
the maximum bound unless it is a single sentence that by itself exceeds
the maximum. -/
def ChunkBoundsClaim (minW maxW : Nat) (text : List Sentence) : Prop :=
  ∀ cs, Chunker.chunk ⟨minW, maxW⟩ text = .ok cs →
    (∀ c ∈ cs.dropLast, minW ≤ chunkWords c) ∧
    (∀ c ∈ cs, chunkWords c ≤ maxW ∨ (c.length = 1 ∧ maxW < chunkWords c))

/-- Five-word sentence of the C2 counterexample. -/
def sFive : Sentence := ["w1", "w2", "w3", "w4", "w5"]

/-- Nine-word sentence of the C2 counterexample. -/
def sNine : Sentence := ["v1", "v2", "v3", "v4", "v5", "v6", "v7", "v8", "v9"]

/-- C2 counterexample: with bounds 10..12 and sentences of 5 and 9 words,
the second sentence is force-included to reach the minimum, producing a
single two-sentence chunk of 14 words that exceeds the maximum although no
single sentence does. -/
theorem chunk_bounds_counterexample : ¬ ChunkBoundsClaim 10 12 [sFive, sNine] := by
  intro h
  have h2 := (h [[sFive, sNine]] rfl).2 [sFive, sNine] (by simp)
  rcases h2 with h2 | ⟨h2, _⟩
  · simp [chunkWords, wordCount, sFive, sNine] at h2
  · simp at h2

/-- C2 (amended): assuming the minimum bound does not exceed the maximum,
every chunk except possibly the final one meets the minimum bound, and
every chunk is within the maximum bound unless it is a single sentence or
it was force-extended to reach the minimum (its words before its last
sentence number fewer than the minimum). -/
theorem chunk_bounds_amended (minW maxW : Nat) (hmm : minW ≤ maxW)
    (text : List Sentence) (cs : List Chunk)
    (h : Chunker.chunk ⟨minW, maxW⟩ text = .ok cs) :
    (∀ c ∈ cs.dropLast, minW ≤ chunkWords c) ∧
    (∀ c ∈ cs, chunkWords c ≤ maxW ∨ c.length = 1 ∨ chunkWords c.dropLast < minW) := by
  by_cases ht : text = []
  · simp [Chunker.chunk, ht] at h
  · simp only [Chunker.chunk, if_neg ht, Except.ok.injEq] at h
    subst h
    refine ⟨pack_min minW maxW hmm text [], ?_⟩
    exact pack_max minW maxW text [] (Or.inl (by simp [chunkWords]))

theorem chunk_bounds_amended_witness :
    (1 : Nat) ≤ 8 ∧
    (∀ c ∈ ([[sTwo, sOne]] : List Chunk).dropLast, 1 ≤ chunkWords c) ∧
    (∀ c ∈ ([[sTwo, sOne]] : List Chunk),
      chunkWords c ≤ 8 ∨ c.length = 1 ∨ chunkWords c.dropLast < 1) :=
  ⟨by decide, chunk_bounds_amended 1 8 (by decide) demoText [[sTwo, sOne]] rfl⟩

/-- C8: the chunker is a pure, deterministic function of its text and
constraints: two runs on equal inputs yield identical chunk sequences. -/
theorem chunk_deterministic (c1 c2 : Constraints) (t1 t2 : List Sentence)
    (hc : c1 = c2) (ht : t1 = t2) :
    Chunker.chunk c1 t1 = Chunker.chunk c2 t2 := by
  rw [hc, ht]

theorem chunk_deterministic_witness :
    (⟨1, 8⟩ : Constraints) = ⟨1, 8⟩ ∧ demoText = demoText ∧
    Chunker.chunk ⟨1, 8⟩ demoText = Chunker.chunk ⟨1, 8⟩ demoText :=
  ⟨rfl, rfl, chunk_deterministic ⟨1, 8⟩ ⟨1, 8⟩ demoText demoText rfl rfl⟩

theorem stepUnit_index (env : StageEnv) (u : JobUnit) :
    (stepUnit env u).index = u.index := by
  obtain ⟨i, ct, sc, au, vi, st⟩ := u
  cases st with
  | chunked =>
    simp only [stepUnit]
    cases env.scriptGen i ct <;> rfl
  | scripted =>
    simp only [stepUnit]
    cases env.synthesize i (sc.getD "") <;> rfl
  | narrated =>
    simp only [stepUnit]
    cases env.visualGen i (sc.getD "") <;> rfl
  | visualized => rfl
  | ready => rfl
  | failed c => rfl

theorem runUnit_index (env : StageEnv) (u : JobUnit) :
    (runUnit env u).index = u.index := by
  simp [runUnit, stepUnit_index]

theorem runUnit_ready (env : StageEnv)
    (hs : ∀ i c, ∃ s, env.scriptGen i c = .ok s)
    (ha : ∀ i s, ∃ a, env.synthesize i s = .ok a)
    (hv : ∀ i s, ∃ v, env.visualGen i s = .ok v)
    (u : JobUnit) (hu : u.state = .chunked) :
    (runUnit env u).state = .ready := by
  obtain ⟨i, ct, sc, au, vi, st⟩ := u
  simp only at hu
  subst hu
  obtain ⟨s, hsok⟩ := hs i ct
  obtain ⟨a, haok⟩ := ha i s
  obtain ⟨v, hvok⟩ := hv i s
  simp [runUnit, stepUnit, hsok, haok, hvok]

theorem seedFrom_index (cs : List Chunk) :
    ∀ i : Nat, (seedFrom i cs).map JobUnit.index = List.range' i cs.length := by
  induction cs with
  | nil => intro i; rfl
  | cons c cs ih =>
    intro i
    simp only [seedFrom, List.map_cons, List.length_cons, List.range'_succ]
    rw [ih]

theorem seedUnits_index (chunks : List Chunk) :
    (seedUnits chunks).map JobUnit.index = List.range chunks.length := by
  rw [seedUnits, seedFrom_index, List.range_eq_range']

theorem seedFrom_length (cs : List Chunk) :
    ∀ i : Nat, (seedFrom i cs).length = cs.length := by
  induction cs with
  | nil => intro i; rfl
  | cons c cs ih =>
    intro i
    simp only [seedFrom, List.length_cons, ih]

theorem seedFrom_state {cs : List Chunk} {u : JobUnit} :
    ∀ {i : Nat}, u ∈ seedFrom i cs → u.state = .chunked := by
  induction cs with
  | nil => intro i h; simp [seedFrom] at h
  | cons c cs ih =>
    intro i h
    rcases List.mem_cons.mp h with rfl | h
    · rfl
    · exact ih h

theorem runPipeline_units (env : StageEnv) (opts : Options) (chunks : List Chunk) :
    (runPipeline env opts chunks).1.units = (seedUnits chunks).map (runUnit env) := by
  rw [runPipeline]
  split_ifs <;> rfl

theorem mapped_units_index (env : StageEnv) (chunks : List Chunk) :
    ((seedUnits chunks).map (runUnit env)).map JobUnit.index =
      List.range chunks.length := by
  rw [List.map_map]
  have hfun : (JobUnit.index ∘ runUnit env) = JobUnit.index :=
    funext (runUnit_index env)
  rw [hfun, seedUnits_index]

theorem runPipeline_calls_index (env : StageEnv) (opts : Options) (chunks : List Chunk) :
    ∀ call ∈ (runPipeline env opts chunks).2,
      call.map JobUnit.index = List.range chunks.length := by
  rw [runPipeline]
  split_ifs with h1 h2
  · intro call hc
    rcases List.mem_singleton.mp hc with rfl
    exact mapped_units_index env chunks
  · intro call hc
    rcases List.mem_singleton.mp hc with rfl
    rw [List.map_map]
    have hfun : (JobUnit.index ∘ fun u : JobUnit =>
        if u.state.isReady then u else fillPlaceholder u) = JobUnit.index := by
      funext u
      by_cases hr : u.state.isReady <;> simp [hr, fillPlaceholder]
    rw [hfun]
    exact mapped_units_index env chunks
  · intro call hc
    simp at hc

/-- C3: an empty (or whitespace-only, hence sentence-free) input makes the
chunker fail with InvalidInput, and processJob returns that failure with no
unit created and no assembler invocation. -/
theorem processJob_empty_invalidInput (env : StageEnv) (opts : Options) :
    processJob env opts [] =
      ({ status := .failed, cause := some .invalidInput, video := none,
         units := [] }, []) ∧
    Chunker.chunk ⟨opts.minWordsPerChunk, opts.maxWordsPerChunk⟩ [] =
      .error .invalidInput :=
  ⟨rfl, rfl⟩

/-- C4: when every stage call of every unit succeeds, the job completes,
the assembler is invoked exactly once, and it receives all the units in
sequence-index order 0..N-1. -/
theorem processJob_all_success (env : StageEnv) (opts : Options)
    (text : List Sentence) (htext : text ≠ [])
    (hs : ∀ i c, ∃ s, env.scriptGen i c = .ok s)
    (ha : ∀ i s, ∃ a, env.synthesize i s = .ok a)
    (hv : ∀ i s, ∃ v, env.visualGen i s = .ok v) :
    (processJob env opts text).1.status = .completed ∧
    (processJob env opts text).2 = [(processJob env opts text).1.units] ∧
    (processJob env opts text).1.units.map JobUnit.index =
      List.range (processJob env opts text).1.units.length := by
  have hpj : processJob env opts text =
      runPipeline env opts
        (Chunker.pack opts.minWordsPerChunk opts.maxWordsPerChunk [] text) := by
    simp [processJob, Chunker.chunk, htext]
  rw [hpj]
  set chunks := Chunker.pack opts.minWordsPerChunk opts.maxWordsPerChunk [] text
  have hall : ((seedUnits chunks).map (runUnit env)).all
      (fun u => u.state.isReady) = true := by
    rw [List.all_eq_true]
    intro u hu
    rw [List.mem_map] at hu
    obtain ⟨u0, hu0, rfl⟩ := hu
    have hr := runUnit_ready env hs ha hv u0 (seedFrom_state hu0)
    simp [hr, UnitState.isReady]
  have hres : runPipeline env opts chunks =
      ({ status := .completed, cause := none,
         video := (assemble ((seedUnits chunks).map (runUnit env))).toOption,
         units := (seedUnits chunks).map (runUnit env) },
       [(seedUnits chunks).map (runUnit env)]) := by
    unfold runPipeline
    simp only [hall]
    simp
  rw [hres]
  refine ⟨rfl, rfl, ?_⟩
  have hlen : ((seedUnits chunks).map (runUnit env)).length = chunks.length := by
    rw [List.length_map, seedUnits, seedFrom_length]
  simp only [hlen]
  exact mapped_units_index env chunks

theorem processJob_all_success_witness :
    demoText ≠ [] ∧
    (processJob demoEnv demoOpts demoText).1.status = .completed ∧
    (processJob demoEnv demoOpts demoText).2 =
      [(processJob demoEnv demoOpts demoText).1.units] ∧
    (processJob demoEnv demoOpts demoText).1.units.map JobUnit.index =
      List.range (processJob demoEnv demoOpts demoText).1.units.length :=
  ⟨by decide,
   processJob_all_success demoEnv demoOpts demoText (by decide)
     (fun _ _ => ⟨"script-text", rfl⟩) (fun _ _ => ⟨"audio", rfl⟩)
     (fun _ _ => ⟨"visual", rfl⟩)⟩

/-- C5: with the strict policy (allowPartialOutput false), a job in which
some unit reaches the failed state ends with status Failed and the
assembler is never invoked. -/
theorem processJob_strict_failure (env : StageEnv) (opts : Options)
    (text : List Sentence)
    (hpolicy : opts.allowPartialOutput = false)
    (hfail : ∃ u ∈ (processJob env opts text).1.units, u.state.isFailed = true) :
    (processJob env opts text).1.status = .failed ∧
    (processJob env opts text).2 = [] := by
  by_cases ht : text = []
  · subst ht
    simp [processJob, Chunker.chunk] at hfail
  · have hpj : processJob env opts text =
        runPipeline env opts
          (Chunker.pack opts.minWordsPerChunk opts.maxWordsPerChunk [] text) := by
      simp [processJob, Chunker.chunk, ht]
    rw [hpj] at hfail ⊢
    set chunks := Chunker.pack opts.minWordsPerChunk opts.maxWordsPerChunk [] text
    by_cases hall : ((seedUnits chunks).map (runUnit env)).all
        (fun u => u.state.isReady) = true
    · exfalso
      obtain ⟨u, hu, hf⟩ := hfail
      rw [runPipeline_units] at hu
      have hr := List.all_eq_true.mp hall u hu
      simp only at hr
      cases hst : u.state <;>
        simp [hst, UnitState.isReady, UnitState.isFailed] at hr hf
    · have hres : runPipeline env opts chunks =
          ({ status := .failed, cause := none, video := none,
             units := (seedUnits chunks).map (runUnit env) }, []) := by
        unfold runPipeline
        rw [Bool.not_eq_true] at hall
        simp only [hall, hpolicy]
        simp
      rw [hres]
      exact ⟨rfl, rfl⟩

theorem processJob_strict_failure_witness :
    demoOpts.allowPartialOutput = false ∧
    (∃ u ∈ (processJob failEnv demoOpts demoText).1.units,
      u.state.isFailed = true) ∧
    (processJob failEnv demoOpts demoText).1.status = .failed ∧
    (processJob failEnv demoOpts demoText).2 = [] :=
  ⟨rfl, by decide, processJob_strict_failure failEnv demoOpts demoText rfl (by decide)⟩

/-- C6: the seeded units of a job carry exactly the contiguous sequence
indices 0..N-1 where N is the chunk count, the units of the final result
still carry them, and every unit list ever handed to the assembler lists
the units in exactly that index order. -/
theorem unit_indices_contiguous (env : StageEnv) (opts : Options)
    (text : List Sentence) (chunks : List Chunk)
    (h : Chunker.chunk ⟨opts.minWordsPerChunk, opts.maxWordsPerChunk⟩ text = .ok chunks) :
    (seedUnits chunks).map JobUnit.index = List.range chunks.length ∧
    (processJob env opts text).1.units.map JobUnit.index = List.range chunks.length ∧
    ∀ call ∈ (processJob env opts text).2,
      call.map JobUnit.index = List.range chunks.length := by
  by_cases ht : text = []
  · simp [Chunker.chunk, ht] at h
  · simp only [Chunker.chunk, if_neg ht, Except.ok.injEq] at h
    have hpj : processJob env opts text = runPipeline env opts chunks := by
      simp [processJob, Chunker.chunk, ht, h]
    rw [hpj]
    refine ⟨seedUnits_index chunks, ?_, runPipeline_calls_index env opts chunks⟩
    rw [runPipeline_units]
    exact mapped_units_index env chunks

theorem unit_indices_contiguous_witness :
    (seedUnits [[sTwo, sOne]]).map JobUnit.index =
      List.range ([[sTwo, sOne]] : List Chunk).length ∧
    (processJob demoEnv demoOpts demoText).1.units.map JobUnit.index =
      List.range ([[sTwo, sOne]] : List Chunk).length ∧
    ∀ call ∈ (processJob demoEnv demoOpts demoText).2,
      call.map JobUnit.index = List.range ([[sTwo, sOne]] : List Chunk).length :=
  unit_indices_contiguous demoEnv demoOpts demoText [[sTwo, sOne]] rfl

theorem stepUnit_forward (env : StageEnv) (u : JobUnit) :
    (stepUnit env u).state = u.state ∨
      StepsForward u.state (stepUnit env u).state := by
  obtain ⟨i, ct, sc, au, vi, st⟩ := u
  cases st with
  | chunked =>
    right
    simp only [stepUnit]
    cases env.scriptGen i ct with
    | ok s => exact StepsForward.script
    | error c => exact StepsForward.fail _ _ (fun h => nomatch h) (fun c' h => nomatch h)
  | scripted =>
    right
    simp only [stepUnit]
    cases env.synthesize i (sc.getD "") with
    | ok a => exact StepsForward.narrate
    | error c => exact StepsForward.fail _ _ (fun h => nomatch h) (fun c' h => nomatch h)
  | narrated =>
    right
    simp only [stepUnit]
    cases env.visualGen i (sc.getD "") with
    | ok v => exact StepsForward.visualize
    | error c => exact StepsForward.fail _ _ (fun h => nomatch h) (fun c' h => nomatch h)
  | visualized => exact Or.inr StepsForward.finish
  | ready => exact Or.inl rfl
  | failed c => exact Or.inl rfl

theorem stepsForward_rank : ∀ {a b : UnitState}, StepsForward a b →
    stateRank a < stateRank b
  | _, _, .script => by simp [stateRank]
  | _, _, .narrate => by simp [stateRank]
  | _, _, .visualize => by simp [stateRank]
  | _, _, .finish => by simp [stateRank]
  | _, _, .fail s c hr hf => by
    cases s with
    | chunked => simp [stateRank]
    | scripted => simp [stateRank]
    | narrated => simp [stateRank]
    | visualized => simp [stateRank]
    | ready => exact absurd rfl hr
    | failed c' => exact absurd rfl (hf c')

theorem rank_le_of_rtg {a b : UnitState}
    (h : Relation.ReflTransGen StepsForward a b) : stateRank a ≤ stateRank b := by
  induction h with
  | refl => exact le_rfl
  | tail _ hstep ih => exact ih.trans (Nat.le_of_lt (stepsForward_rank hstep))

theorem rtg_iterate (env : StageEnv) (u : JobUnit) :
    ∀ m n : Nat, n ≤ m →
      Relation.ReflTransGen StepsForward
        ((stepUnit env)^[n] u).state ((stepUnit env)^[m] u).state := by
  intro m
  induction m with
  | zero =>
    intro n hn
    rw [Nat.le_zero.mp hn]
  | succ k ih =>
    intro n hn
    rcases Nat.lt_or_ge n (k + 1) with hlt | hge
    · have tail := ih n (Nat.lt_succ_iff.mp hlt)
      rw [Function.iterate_succ_apply']
      rcases stepUnit_forward env ((stepUnit env)^[k] u) with heq | hstep
      · rw [heq]
        exact tail
      · exact tail.tail hstep
    · rw [Nat.le_antisymm hn hge]

/-- C7: along any execution of the orchestrator's unit driver, a unit's
state only ever moves forward through the chain Chunked, Scripted,
Narrated, Visualized, Ready, or jumps from a non-terminal state into the
absorbing Failed state; its position along the chain never decreases, so
it never regresses to an earlier state. -/
theorem unit_states_forward_only (env : StageEnv) (u : JobUnit) (n m : Nat)
    (h : n ≤ m) :
    Relation.ReflTransGen StepsForward
      ((stepUnit env)^[n] u).state ((stepUnit env)^[m] u).state ∧
    stateRank ((stepUnit env)^[n] u).state ≤
      stateRank ((stepUnit env)^[m] u).state := by
  have key := rtg_iterate env u m n h
  exact ⟨key, rank_le_of_rtg key⟩

theorem unit_states_forward_only_witness :
    Relation.ReflTransGen StepsForward
      ((stepUnit demoEnv)^[0] demoUnit).state
      ((stepUnit demoEnv)^[4] demoUnit).state ∧
    stateRank ((stepUnit demoEnv)^[0] demoUnit).state ≤
      stateRank ((stepUnit demoEnv)^[4] demoUnit).state :=
  unit_states_forward_only demoEnv demoUnit 0 4 (by decide)

end Liminal

namespace Frontend

/-- C9: in both content-input components, selecting a file whose MIME type
is neither application/pdf nor text/plain only sets the error message
"Please upload a PDF or text file" and leaves inputData unchanged, while
selecting a file of one of those two types stores it in inputData.file and
clears the error message. -/
theorem handleFileChange_validates (files : List File) (f : File)
    (s : ContentInput.State) (t : HomePage.State)
    (hf : files.head? = some f) :
    ((f.type ≠ "application/pdf" ∧ f.type ≠ "text/plain") →
      (ContentInput.handleFileChange files s).error =
        "Please upload a PDF or text file" ∧
      (ContentInput.handleFileChange files s).inputData = s.inputData ∧
      (HomePage.handleFileChange files t).error =
        "Please upload a PDF or text file" ∧
      (HomePage.handleFileChange files t).inputData = t.inputData) ∧
    ((f.type = "application/pdf" ∨ f.type = "text/plain") →
      (ContentInput.handleFileChange files s).inputData.file = some f ∧
      (ContentInput.handleFileChange files s).error = "" ∧
      (HomePage.handleFileChange files t).inputData.file = some f ∧
      (HomePage.handleFileChange files t).error = "") := by
  constructor
  · rintro ⟨h1, h2⟩
    have hcond : ¬ (f.type = "application/pdf" ∨ f.type = "text/plain") := by
      rintro (h | h)
      · exact h1 h
      · exact h2 h
    simp only [ContentInput.handleFileChange, HomePage.handleFileChange, hf]
    rw [if_neg hcond, if_neg hcond]
    exact ⟨rfl, rfl, rfl, rfl⟩
  · intro h
    simp only [ContentInput.handleFileChange, HomePage.handleFileChange, hf]
    rw [if_pos h, if_pos h]
    exact ⟨rfl, rfl, rfl, rfl⟩

theorem handleFileChange_validates_witness :
    ((ContentInput.handleFileChange [badFile] cState).error =
        "Please upload a PDF or text file" ∧
     (ContentInput.handleFileChange [badFile] cState).inputData = cState.inputData ∧
     (HomePage.handleFileChange [badFile] hState).error =
        "Please upload a PDF or text file" ∧
     (HomePage.handleFileChange [badFile] hState).inputData = hState.inputData) ∧
    ((ContentInput.handleFileChange [goodFile] cState).inputData.file = some goodFile ∧
     (ContentInput.handleFileChange [goodFile] cState).error = "" ∧
     (HomePage.handleFileChange [goodFile] hState).inputData.file = some goodFile ∧
     (HomePage.handleFileChange [goodFile] hState).error = "") :=
  ⟨(handleFileChange_validates [badFile] badFile cState hState rfl).1 (by decide),
   (handleFileChange_validates [goodFile] goodFile cState hState rfl).2 (Or.inl rfl)⟩

/-- C10: the home-page submit handler, on the url tab with an empty url or
on the upload tab with no file, only sets the matching validation error
message, issues no network request, and leaves the processing flag
untouched. -/
theorem handleSubmit_validates (fetchOk : Bool) (s : HomePage.State) :
    (s.activeTab = "url" → s.inputData.url = "" →
      HomePage.handleSubmit fetchOk s =
        ({ s with error := "Please enter a URL" }, []) ∧
      ({ s with error := "Please enter a URL" } : HomePage.State).isProcessing =
        s.isProcessing) ∧
    (s.activeTab = "upload" → s.inputData.file = none →
      HomePage.handleSubmit fetchOk s =
        ({ s with error := "Please upload a file" }, []) ∧
      ({ s with error := "Please upload a file" } : HomePage.State).isProcessing =
        s.isProcessing) := by
  constructor
  · intro h1 h2
    rw [HomePage.handleSubmit, if_pos ⟨h1, h2⟩]
    exact ⟨rfl, rfl⟩
  · intro h1 h2
    have hurl : ¬ (s.activeTab = "url" ∧ s.inputData.url = "") := by
      rintro ⟨hu, _⟩
      rw [h1] at hu
      exact absurd hu (by decide)
    rw [HomePage.handleSubmit, if_neg hurl, if_pos ⟨h1, h2⟩]
    exact ⟨rfl, rfl⟩

theorem handleSubmit_validates_witness :
    (HomePage.handleSubmit true emptyUrlState =
        ({ emptyUrlState with error := "Please enter a URL" }, []) ∧
     ({ emptyUrlState with error := "Please enter a URL" } : HomePage.State).isProcessing =
        emptyUrlState.isProcessing) ∧
    (HomePage.handleSubmit true noFileState =
        ({ noFileState with error := "Please upload a file" }, []) ∧
     ({ noFileState with error := "Please upload a file" } : HomePage.State).isProcessing =
        noFileState.isProcessing) :=
  ⟨(handleSubmit_validates true emptyUrlState).1 rfl rfl,
   (handleSubmit_validates true noFileState).2 rfl rfl⟩

end Frontend
